import Mathlib

/-!
Verification of the repo-resource core (`repo_resource/common.py`,
`repo_resource/check.py`) against its natural-language specification.

The Python code is shallowly embedded: XML element trees become the
`XNode` inductive (ElementTree stores inter-element whitespace in
`text`/`tail` fields which the canonicalizer strips, so whitespace-only
text is not represented), Python exceptions become `Except`/`Option`,
and the mutable child lists of ElementTree become explicit list-passing
that mirrors the source's index-based iteration, `insert` and `remove`
semantics.
-/

deriving instance DecidableEq for Except

namespace RepoResource

/-! ### Character and string utilities

Python compares strings by code points; we mirror that with executable
comparisons on `List Char` (Lean's built-in `String` order does not
reduce in the kernel). -/

/-- Lexicographic (code-point) less-or-equal on character lists, as Python
string comparison. -/
def clLe : List Char → List Char → Bool
  | [], _ => true
  | _ :: _, [] => false
  | a :: as, b :: bs => if a < b then true else if b < a then false else clLe as bs

/-- Code-point comparison lifted to `String`. -/
def strLeB (a b : String) : Bool := clLe a.data b.data

/-- Whether `pre` is a leading segment of `l` (Python `str.startswith`). -/
def leadsList : List Char → List Char → Bool
  | [], _ => true
  | _ :: _, [] => false
  | a :: as, b :: bs => a == b && leadsList as bs

/-- Whether `needle` occurs contiguously inside `hay` (Python `in` on strings). -/
def containsSub (hay needle : List Char) : Bool :=
  match hay with
  | [] => needle.isEmpty
  | _ :: t => leadsList needle hay || containsSub t needle

/-- Python `str.startswith` on `String`. -/
def strStarts (s pre : String) : Bool := leadsList pre.data s.data

/-- Python `needle in hay` on `String`. -/
def strContains (hay needle : String) : Bool := containsSub hay.data needle.data

/-- Python `str.upper` restricted to ASCII (the retry check upcases the
exception text before searching for "HTTP 429"). -/
def asciiUpper (s : String) : String :=
  ⟨s.data.map fun c => if 'a' ≤ c ∧ c ≤ 'z' then Char.ofNat (c.toNat - 32) else c⟩

/-- Python `str.rstrip("/")`: drop every trailing slash. -/
def rstripSlash (s : String) : String :=
  ⟨(s.data.reverse.dropWhile (· == '/')).reverse⟩

/-! ### The XML element model

`xml.etree.ElementTree` elements: a tag, an attribute dictionary
(insertion-ordered, unique keys) and a list of child elements. -/

/-- An ElementTree element: tag, attributes (in document order) and child
elements. -/
inductive XNode where
  | elem (tag : String) (attrs : List (String × String)) (children : List XNode)

/-- Tag of an element. -/
def XNode.tag : XNode → String
  | .elem t _ _ => t

/-- Attribute list of an element. -/
def XNode.attrs : XNode → List (String × String)
  | .elem _ a _ => a

/-- Child elements. -/
def XNode.children : XNode → List XNode
  | .elem _ _ cs => cs

/-- Python `element.get(key)`: first (and in ElementTree only) binding of an
attribute. -/
def XNode.get (x : XNode) (key : String) : Option String :=
  (x.attrs.find? fun p => p.1 == key).map Prod.snd

mutual
/-- Decidable structural equality on elements. -/
def XNode.decEq : (a b : XNode) → Decidable (a = b)
  | .elem t a cs, .elem t' a' cs' =>
    match String.decEq t t' with
    | isFalse h => isFalse (by intro e; injection e; contradiction)
    | isTrue h1 =>
      match inferInstanceAs (Decidable (a = a')) with
      | isFalse h => isFalse (by intro e; injection e; contradiction)
      | isTrue h2 =>
        match XNode.decEqL cs cs' with
        | isFalse h => isFalse (by intro e; injection e; contradiction)
        | isTrue h3 => isTrue (by rw [h1, h2, h3])
/-- Decidable structural equality on element lists. -/
def XNode.decEqL : (as bs : List XNode) → Decidable (as = bs)
  | [], [] => isTrue rfl
  | [], _ :: _ => isFalse (by intro e; injection e)
  | _ :: _, [] => isFalse (by intro e; injection e)
  | x :: xs, y :: ys =>
    match XNode.decEq x y with
    | isFalse h => isFalse (by intro e; injection e; contradiction)
    | isTrue h1 =>
      match XNode.decEqL xs ys with
      | isFalse h => isFalse (by intro e; injection e; contradiction)
      | isTrue h2 => isTrue (by rw [h1, h2])
end

instance : DecidableEq XNode := XNode.decEq

mutual
/-- Preorder traversal of an element and its descendants
(Python `element.iter()`): the element itself first, then every
descendant, depth first. -/
def XNode.iterList : XNode → List XNode
  | .elem t a cs => .elem t a cs :: XNode.iterListL cs
/-- Preorder traversal of a list of sibling subtrees. -/
def XNode.iterListL : List XNode → List XNode
  | [] => []
  | c :: cs => XNode.iterList c ++ XNode.iterListL cs
end

/-! ### Constants from `common.py` -/

/-- Default worker count (`DEFAULT_CHECK_JOBS = 2`). -/
def DEFAULT_CHECK_JOBS : Nat := 2

/-- Maximum `git ls-remote` attempts (`GIT_LS_REMOTE_MAX_RETRIES = 3`). -/
def GIT_LS_REMOTE_MAX_RETRIES : Nat := 3

/-- Fixed inter-attempt delay in milliseconds (`GIT_LS_REMOTE_WAIT = 2000`). -/
def GIT_LS_REMOTE_WAIT : Nat := 2000

/-- Attributes excluded from the canonical form
(`EXCLUDE_ATTRS = {'dest-branch', 'upstream'}`). -/
def EXCLUDE_ATTRS : List String := ["dest-branch", "upstream"]

/-- Recognized manifest element tags, in their fixed order (`TAGS`). -/
def TAGS : List String :=
  ["remote", "default", "manifest-server", "project", "extend-project",
   "annotation", "copyfile", "linkfile", "remove-project", "include",
   "superproject", "contactinfo"]

/-! ### The canonicalizer (`Version.standard`)

`Version.standard` parses the stored text, removes unrecognized top-level
elements with an in-place removal loop, sorts the remaining top-level
elements by `(TAGS index, name attribute)`, wraps them in a fresh
attribute-less `manifest` element and serializes with
`ET.canonicalize(strip_text=True, exclude_attrs=EXCLUDE_ATTRS)`. -/

/-- The removal loop `for element in root: if element.tag not in TAGS:
root.remove(element)`. Removing the element at the iterator's position
shifts the list left while the iterator still advances, so the element
immediately after a removed one is never examined; this recursion mirrors
that skip exactly. -/
def pyFilterTags : List XNode → List XNode
  | [] => []
  | [x] => if TAGS.contains x.tag then [x] else []
  | x :: y :: rest =>
    if TAGS.contains x.tag then x :: pyFilterTags (y :: rest)
    else y :: pyFilterTags rest

/-- First component of the sort key:
`TAGS.index(x.tag) if x.tag in TAGS else 999`. -/
def tagRank (t : String) : Nat :=
  match TAGS.indexOf? t with
  | some i => i
  | none => 999

/-- Second component of the sort key: `x.get('name') or ""`. -/
def nameKey (x : XNode) : String :=
  match x.get "name" with
  | some n => n
  | none => ""

/-- The composite sort key ordering used by `sorted(root, key=...)`:
lexicographic on `(tagRank, name)`. -/
def keyLe (x y : XNode) : Prop :=
  tagRank x.tag < tagRank y.tag ∨
    (tagRank x.tag = tagRank y.tag ∧ strLeB (nameKey x) (nameKey y) = true)

instance : DecidableRel keyLe := fun x y => by
  unfold keyLe; infer_instance

/-- Python's `sorted` is the unique stable sort by the key, as is insertion
sort with a total preorder; the two agree. -/
def sortChildren (cs : List XNode) : List XNode :=
  cs.insertionSort keyLe

/-- C14N escaping for attribute values. -/
def escAttr (s : String) : String :=
  ⟨s.data.flatMap fun c =>
    if c = '&' then "&amp;".data
    else if c = '<' then "&lt;".data
    else if c = '"' then "&quot;".data
    else if c = '\t' then "&#x9;".data
    else if c = '\n' then "&#xA;".data
    else if c = '\r' then "&#xD;".data
    else [c]⟩

/-- Render one attribute as canonical XML. -/
def renderAttr (p : String × String) : String :=
  " " ++ p.1 ++ "=\"" ++ escAttr p.2 ++ "\""

/-- Attribute key order used by C14N (document attributes have unique
names; C14N emits them sorted by name). -/
def attrLe (p q : String × String) : Prop := strLeB p.1 q.1 = true

instance : DecidableRel attrLe := fun p q => by
  unfold attrLe; infer_instance

/-- Canonical attribute rendering: drop excluded attributes, sort the rest
by name, render each. -/
def c14nAttrs (excl : List String) (attrs : List (String × String)) : String :=
  (((attrs.filter fun p => !excl.contains p.1).insertionSort attrLe).map
    renderAttr).foldl (· ++ ·) ""

mutual
/-- C14N serialization of one element (no self-closing forms, attributes
sorted, excluded attributes dropped; text was whitespace-only and is
stripped by `strip_text=True`, hence absent from the model). -/
def c14nNode (excl : List String) : XNode → String
  | .elem t a cs =>
    "<" ++ t ++ c14nAttrs excl a ++ ">" ++ c14nListNodes excl cs ++ "</" ++ t ++ ">"
/-- C14N serialization of a sibling list. -/
def c14nListNodes (excl : List String) : List XNode → String
  | [] => ""
  | c :: cs => c14nNode excl c ++ c14nListNodes excl cs
end

/-- The tree-level canonicalization pipeline of `Version.standard`: filter
the root's children by the recognized-tag loop, sort by the composite key,
re-wrap in a fresh `manifest` element, serialize canonically. -/
def standardOfTree (root : XNode) : String :=
  c14nNode EXCLUDE_ATTRS
    (XNode.elem "manifest" [] (sortChildren (pyFilterTags root.children)))

/-! ### XML parsing -/

/-- XML whitespace. -/
def xmlWs (c : Char) : Bool := c == ' ' || c == '\t' || c == '\n' || c == '\r'

/-- XML name characters (ASCII fragment used by manifests). -/
def nameChar (c : Char) : Bool :=
  c.isAlphanum || c == '-' || c == '_' || c == ':' || c == '.'

/-- Skip whitespace. -/
def skipWs (cs : List Char) : List Char := cs.dropWhile xmlWs

/-- The apostrophe character (the alternative XML attribute quote). -/
def aposChar : Char := Char.ofNat 39

/-- Read an attribute value up to the closing quote `q`, expanding the five
predefined entities; a raw `<` is malformed. -/
def readAttrValue (q : Char) : Nat → List Char → Option (List Char × List Char)
  | 0, _ => none
  | fuel + 1, cs =>
    match cs with
    | [] => none
    | c :: rest =>
      if c == q then some ([], rest)
      else if c == '<' then none
      else if c == '&' then
        if leadsList "amp;".data rest then
          (readAttrValue q fuel (rest.drop 4)).map fun p => ('&' :: p.1, p.2)
        else if leadsList "lt;".data rest then
          (readAttrValue q fuel (rest.drop 3)).map fun p => ('<' :: p.1, p.2)
        else if leadsList "gt;".data rest then
          (readAttrValue q fuel (rest.drop 3)).map fun p => ('>' :: p.1, p.2)
        else if leadsList "quot;".data rest then
          (readAttrValue q fuel (rest.drop 5)).map fun p => ('"' :: p.1, p.2)
        else if leadsList "apos;".data rest then
          (readAttrValue q fuel (rest.drop 5)).map fun p => (aposChar :: p.1, p.2)
        else none
      else (readAttrValue q fuel rest).map fun p => (c :: p.1, p.2)

/-- Parse an attribute list; duplicate attribute names are malformed
(as in ElementTree). -/
def parseAttrs : Nat → List Char → Option (List (String × String) × List Char)
  | 0, _ => none
  | fuel + 1, cs =>
    let cs1 := skipWs cs
    match cs1 with
    | c :: _ =>
      if nameChar c then
        let nm : List Char := cs1.takeWhile nameChar
        let cs2 := skipWs (cs1.drop nm.length)
        match cs2 with
        | '=' :: cs3 =>
          match skipWs cs3 with
          | q :: cs4 =>
            if q == '"' || q == aposChar then
              match readAttrValue q fuel cs4 with
              | some (v, cs5) =>
                match parseAttrs fuel cs5 with
                | some (attrs, cs6) =>
                  if attrs.any fun p => p.1 == String.mk nm then none
                  else some ((String.mk nm, String.mk v) :: attrs, cs6)
                | none => none
              | none => none
            else none
          | [] => none
        | _ => none
      else some ([], cs1)
    | [] => some ([], cs1)

mutual
/-- Parse one element starting at `<`. -/
def parseElem : Nat → List Char → Option (XNode × List Char)
  | 0, _ => none
  | fuel + 1, cs =>
    match cs with
    | '<' :: rest =>
      let nm : List Char := rest.takeWhile nameChar
      if nm.isEmpty then none
      else
        match parseAttrs fuel (rest.drop nm.length) with
        | some (attrs, cs2) =>
          match cs2 with
          | '/' :: '>' :: cs3 => some (XNode.elem (String.mk nm) attrs [], cs3)
          | '>' :: cs3 =>
            match parseSiblings fuel cs3 with
            | some (children, cs4) =>
              match cs4 with
              | '<' :: '/' :: cs5 =>
                if leadsList nm cs5 then
                  match skipWs (cs5.drop nm.length) with
                  | '>' :: cs6 =>
                    some (XNode.elem (String.mk nm) attrs children, cs6)
                  | _ => none
                else none
              | _ => none
            | none => none
          | _ => none
        | none => none
    | _ => none

/-- Parse a sequence of sibling elements, stopping before a closing tag;
non-whitespace text content is not supported by this model. -/
def parseSiblings : Nat → List Char → Option (List XNode × List Char)
  | 0, _ => none
  | fuel + 1, cs =>
    let cs1 := skipWs cs
    match cs1 with
    | [] => some ([], [])
    | '<' :: '/' :: _ => some ([], cs1)
    | '<' :: _ =>
      match parseElem fuel cs1 with
      | some (x, cs2) =>
        match parseSiblings fuel cs2 with
        | some (xs, cs3) => some (x :: xs, cs3)
        | none => none
      | none => none
    | _ => none
end

/-- Skip a processing instruction or XML declaration `<?...?>`. -/
def skipDecl : Nat → List Char → Option (List Char)
  | 0, _ => none
  | fuel + 1, cs =>
    match cs with
    | '?' :: '>' :: rest => some rest
    | _ :: rest => skipDecl fuel rest
    | [] => none

/-- Modelled from the spec: document parsing, "parses manifest XML" into an
element tree (`ET.fromstring` is an external collaborator, not repository
code). Supports the element/attribute fragment manifests use — an optional
XML declaration, nested elements, quoted attributes with the predefined
entities — and rejects malformed input (`None` plays `ParseError`);
whitespace-only text is skipped because canonicalization strips it, and
non-whitespace text content is outside the model. -/
def parseXML (s : String) : Option XNode :=
  let fuel := 4 * (s.data.length + 2)
  let cs := skipWs s.data
  let prologue : Option (List Char) :=
    if leadsList ['<', '?'] cs then skipDecl fuel cs else some cs
  match prologue with
  | none => none
  | some cs1 =>
    match parseElem fuel (skipWs cs1) with
    | some (root, rest) => if (skipWs rest).isEmpty then some root else none
    | none => none

/-! ### `Version` and the novelty check -/

/-- A `Version`: the opaque raw text Concourse stores. -/
structure Version where
  version : String
deriving DecidableEq

/-- `Version.__eq__`: plain equality of the two raw texts (a non-`Version`
other compares unequal, which the typed embedding makes implicit). -/
def Version.eq (a b : Version) : Bool := a.version == b.version

/-- `Version.standard`: parse the raw text and canonicalize
(`ET.ParseError` surfaces as `none`). -/
def Version.standard (v : Version) : Option String :=
  (parseXML v.version).map standardOfTree

/-- The novelty decision of `check` (`check.py` lines 145-147): the freshly
computed version value is appended to the history unless an identical value
already occurs; the values compared are the raw entries
(`{'sha256': ...}` dictionaries), with no canonicalization step. -/
def checkNovelty {α : Type} [DecidableEq α] (versions : List α) (newVersion : α) :
    List α :=
  if versions.count newVersion = 0 then versions ++ [newVersion] else versions

/-! ### Text-mode file round-trip (`Version.to_file` / `Version.from_file`)

`to_file` writes in text mode (on POSIX `'\n'` maps to itself, so the write
is the identity on the bytes); `from_file` reads in text mode with
universal newlines, which rewrites `"\r\n"` and bare `"\r"` to `"\n"`. -/

/-- Universal-newline translation applied by a Python text-mode read. -/
def univNewlines : List Char → List Char
  | [] => []
  | '\r' :: '\n' :: rest => '\n' :: univNewlines rest
  | '\r' :: rest => '\n' :: univNewlines rest
  | c :: rest => c :: univNewlines rest

/-- `v.to_file(f)` followed by `Version.from_file(f)`. -/
def versionRoundTrip (v : Version) : Version :=
  ⟨⟨univNewlines v.version.data⟩⟩

/-! ### The remote revision resolver (`is_sha1`, `getRevision`,
`retry_getRevision`)

The reference-listing network call (`git ls-remote`) is a collaborator: a
function from repository URL and ref to the flat
`[sha, ref, sha, ref, ...]` word list, or a failure carrying the
exception's text. -/

/-- `is_sha1`: `re.match('^[0-9a-f]{40}$', s)`. The `$` anchor also matches
just before one trailing newline, which the model preserves. -/
def is_sha1 (s : String) : Bool :=
  let cs := if s.data.getLast? == some '\n' then s.data.dropLast else s.data
  cs.length == 40 && cs.all fun c => c.isDigit || ('a' ≤ c && c ≤ 'f')

/-- `zip(revList[::2], revList[1::2])`: pair up consecutive words, dropping
a dangling last word. -/
def pairUpRevList : List String → List (String × String)
  | sha :: ref :: rest => (sha, ref) :: pairUpRevList rest
  | _ => []

/-- Python `dict(entries)[key]`: the value of the last binding of `key`. -/
def dictGet (entries : List (String × String)) (key : String) : Option String :=
  (entries.reverse.find? fun p => p.1 == key).map Prod.snd

/-- One attempt of `getRevision`: the literal-commit fast path, else one
`ls-remote` call, building the ref-to-sha dictionary and looking up the
ref of interest (a missing key raises, modelled as an error). The second
component counts reference-listing calls made by this attempt. -/
def getRevisionOnce (lsRemote : String → String → Except String (List String))
    (remote remoteUrl project branch : String) :
    Except String (String × String × String) × Nat :=
  if is_sha1 branch then (.ok (remote ++ "/" ++ project, branch, branch), 0)
  else
    let headRef :=
      if strStarts branch "refs/tags" then branch ++ "^\x7b\x7d" else branch
    match lsRemote (remoteUrl ++ "/" ++ project) headRef with
    | .error e => (.error e, 1)
    | .ok revList =>
      let revDict := (pairUpRevList revList).map fun p => (p.2, p.1)
      let rev :=
        if strStarts branch "refs/tags" then headRef else "refs/heads/" ++ branch
      match dictGet revDict rev with
      | some sha => (.ok (remote ++ "/" ++ project, branch, sha), 1)
      | none => (.error "KeyError", 1)

/-- `retry_getRevision`'s decision: retry exactly when the upcased
exception text contains "HTTP 429"; any other failure aborts (the source's
`raise str(exception)` surfaces a TypeError rather than the original
exception — equally fatal, and the model keeps the original message). -/
def shouldRetry (msg : String) : Bool := strContains (asciiUpper msg) "HTTP 429"

/-- Outcome of running a call under the retry decorator: the final result,
the number of attempts made, and the fixed delays slept between attempts. -/
structure RetryOutcome (α : Type) where
  result : Except String α
  attempts : Nat
  waitsMs : List Nat

/-- The `retrying` decorator's loop
(`retry_on_exception=retry_getRevision, stop_max_attempt_number=3,
wait_fixed=2000`), an external collaborator modelled by its configured
semantics: run the call; on a retryable failure with attempts left, sleep
the fixed delay and try again; on any other failure, or once the attempt
ceiling is reached, surface the failure. `left` counts the attempts still
allowed after the current one. -/
def retryFrom {α : Type} (call : Nat → Except String α) :
    Nat → Nat → RetryOutcome α
  | attempt, 0 => ⟨call attempt, 1, []⟩
  | attempt, left + 1 =>
    match call attempt with
    | .ok v => ⟨.ok v, 1, []⟩
    | .error msg =>
      if shouldRetry msg then
        let r := retryFrom call (attempt + 1) left
        ⟨r.result, r.attempts + 1, GIT_LS_REMOTE_WAIT :: r.waitsMs⟩
      else ⟨.error msg, 1, []⟩

/-- The decorated resolver entry point: at most
`GIT_LS_REMOTE_MAX_RETRIES` attempts starting from attempt 1. -/
def retryGetRevision {α : Type} (call : Nat → Except String α) : RetryOutcome α :=
  retryFrom call 1 (GIT_LS_REMOTE_MAX_RETRIES - 1)

/-! ### `update_manifest`: remotes, defaults, removals -/

/-- Characters of the `[a-z-.]` class in `re.sub('/[a-z-.]*$', '/', url)`. -/
def segChar (c : Char) : Bool := ('a' ≤ c && c ≤ 'z') || c == '-' || c == '.'

/-- `re.sub('/[a-z-.]*$', '/', url)`: replace the leftmost `/` whose entire
tail consists of `[a-z-.]` characters (any such match necessarily reaches
the end of the string, so there is at most one) by `/`. -/
def stripLastSeg : List Char → List Char
  | [] => []
  | c :: rest =>
    if c == '/' && rest.all segChar then ['/'] else c :: stripLastSeg rest

/-- `re.match("[a-zA-Z]+://", url)`: one or more ASCII letters followed by
`://`, anchored at the start. -/
def isAbsUrl (s : String) : Bool :=
  let al := s.data.takeWhile fun c => c.isAlpha
  !al.isEmpty && leadsList "://".data (s.data.drop al.length)

/-- Fetch-URL absolutization for one `remote` element (`update_manifest`
lines 442-444): strip trailing slashes from the fetch URL; keep it if it
matches a scheme prefix, otherwise append it to the manifest URL with its
trailing `[a-z-.]` segment replaced by `/`. -/
def absolutizeFetch (selfUrl fetch : String) : String :=
  let url := rstripSlash fetch
  if isAbsUrl url then url else ⟨stripLastSeg selfUrl.data⟩ ++ url

/-- `manifest.find('default')`: the first direct child tagged `default`. -/
def findDefault (cs : List XNode) : Option XNode :=
  cs.find? fun c => c.tag == "default"

/-- The effective fallback remote identifier: `defaults.get('remote')` of
the element `find` returned. -/
def effectiveDefaultRemote (cs : List XNode) : Option String :=
  (findDefault cs).bind fun d => d.get "remote"

/-- First removal pass: collect the `name` attributes of all
`remove-project` direct children, in document order. -/
def collectRemovedNames (cs : List XNode) : List (Option String) :=
  (cs.filter fun c => c.tag == "remove-project").map fun c => c.get "name"

/-- The same pass removes every `remove-project` element itself. -/
def dropRemoveDirectives (cs : List XNode) : List XNode :=
  cs.filter fun c => !(c.tag == "remove-project")

/-- Second removal pass over `findall('project')`: drop the first
not-yet-consumed project whose name occurs in the pending list, consuming
one occurrence per removal. The source's early `break` once the pending
list is empty removes nothing further and is behavior-preserving. -/
def applyRemovals : List (Option String) → List XNode → List XNode
  | _, [] => []
  | removed, c :: rest =>
    if c.tag == "project" && removed.contains (c.get "name") then
      applyRemovals (removed.erase (c.get "name")) rest
    else c :: applyRemovals removed rest

/-- The complete `remove-project` handling of `update_manifest`
(lines 456-472) on the manifest's child list. -/
def removePhase (cs : List XNode) : List XNode :=
  applyRemovals (collectRemovedNames cs) (dropRemoveDirectives cs)

/-- A `project` element named `p`. -/
def isProjNamed (p : String) (c : XNode) : Bool :=
  c.tag == "project" && c.get "name" == some p

/-- A `remove-project` directive for `p`. -/
def isDirNamed (p : String) (c : XNode) : Bool :=
  c.tag == "remove-project" && c.get "name" == some p

/-- Any `remove-project` directive. -/
def isDirective (c : XNode) : Bool := c.tag == "remove-project"

/-! ### Include resolution (`resolve_manifest_include`)

The loop enumerates a snapshot of `manifest.iter()` (the preorder walk,
manifest itself first, so a top-level element at child position k carries
iteration index k+1), loads and recursively resolves each included
sub-manifest, splices the resolved sub-manifest's `iter()` contents minus
`manifest`-tagged elements at the stale enumeration index (Python's
`list.insert` clamps an out-of-range index to an append), and removes the
`include` element from the direct children (`ValueError` if it is not
one). Sub-manifest loading (`ET.parse` by name under
`.repo/manifests/`) is a collaborator `env`; the unbounded Python
recursion gets an explicit fuel, as the spec's recursion-depth ceiling. -/

/-- Python `list.insert(i, a)` (clamping, as `take`/`drop` do). -/
def pyInsertAt {α : Type} (i : Nat) (a : α) (l : List α) : List α :=
  l.take i ++ a :: l.drop i

/-- `for sub_element in reversed(elems): children.insert(idx, sub_element)`. -/
def insertAllRev (idx : Nat) (elems : List XNode) (children : List XNode) :
    List XNode :=
  elems.reverse.foldl (fun acc e => pyInsertAt idx e acc) children

/-- Python `list.remove(x)`: drop the first occurrence, `ValueError` if
absent. ElementTree compares children by object identity; on the distinct
element objects of a parsed document that is first-occurrence removal of
the structurally equal child. -/
def pyRemoveChild (x : XNode) (cs : List XNode) : Except String (List XNode) :=
  if cs.contains x then .ok (cs.erase x) else .error "ValueError"

/-- The body of `resolve_manifest_include`'s loop, processing the
enumerated snapshot while the manifest's direct-child list evolves. -/
def processSnapshot (resolveSub : String → Except String XNode) :
    List (Nat × XNode) → List XNode → Except String (List XNode)
  | [], children => .ok children
  | (idx, e) :: rest, children =>
    if e.tag == "include" then
      match e.get "name" with
      | none => .error "TypeError"
      | some nm =>
        match resolveSub nm with
        | .error msg => .error msg
        | .ok sub =>
          match pyRemoveChild e
              (insertAllRev idx
                ((XNode.iterList sub).filter fun s => !(s.tag == "manifest"))
                children) with
          | .error msg => .error msg
          | .ok removed => processSnapshot resolveSub rest removed
    else processSnapshot resolveSub rest children

/-- `resolve_manifest_include` itself. -/
def resolveInclude (env : String → Option XNode) : Nat → XNode → Except String XNode
  | 0, _ => .error "recursion limit"
  | fuel + 1, m =>
    match processSnapshot
        (fun nm =>
          match env nm with
          | none => .error "FileNotFoundError"
          | some sub => resolveInclude env fuel sub)
        (XNode.iterList m).enum m.children with
    | .ok cs => .ok (XNode.elem m.tag m.attrs cs)
    | .error msg => .error msg

/-- The composite sort key of `Version.standard` as a value, for stating
key-distinctness. -/
def sortKey (x : XNode) : Nat × String := (tagRank x.tag, nameKey x)

/-- No element of the list is tagged `include`. -/
def noIncl (l : List XNode) : Bool := l.all fun d => !(d.tag == "include")

/-- Neither the element nor any of its descendants is tagged `include`. -/
def includeFreeB (x : XNode) : Bool := noIncl (XNode.iterList x)

/-- A manifest document in which `include` elements occur only as direct
children of the root (the manifest format's shape): the root is not an
`include` and no element strictly below depth one is. -/
def topIncludesOnly (m : XNode) : Bool :=
  !(m.tag == "include") && m.children.all fun c => c.children.all includeFreeB

/-! ## Claim C9: literal commit-id fast path -/

/-- C9: a revision query whose ref is a 40-character lowercase hexadecimal
string resolves to that ref itself immediately, with zero
reference-listing calls, independently of the remote-listing collaborator;
under the retry decorator the overall resolution equally succeeds on the
first attempt. -/
theorem C9_sha1_fast_path
    (f g : String → String → Except String (List String))
    (remote remoteUrl project branch : String)
    (h : is_sha1 branch = true) :
    getRevisionOnce f remote remoteUrl project branch =
      (.ok (remote ++ "/" ++ project, branch, branch), 0) ∧
    getRevisionOnce f remote remoteUrl project branch =
      getRevisionOnce g remote remoteUrl project branch ∧
    retryGetRevision (fun _ => (getRevisionOnce f remote remoteUrl project branch).1) =
      ⟨.ok (remote ++ "/" ++ project, branch, branch), 1, []⟩ := by
  refine ⟨?_, ?_, ?_⟩ <;>
    simp [getRevisionOnce, h, retryGetRevision, GIT_LS_REMOTE_MAX_RETRIES, retryFrom]

/-- Witness for C9 at a concrete 40-hex ref and two distinct collaborators
that would answer (or fail) differently if consulted. -/
theorem C9_sha1_fast_path_witness :
    getRevisionOnce (fun _ _ => .error "unreachable") "aosp" "https://a"
        "device/generic/common" "033d50e2298811d81de7db8cdea63e349a96c9ba" =
      (.ok ("aosp/device/generic/common",
            "033d50e2298811d81de7db8cdea63e349a96c9ba",
            "033d50e2298811d81de7db8cdea63e349a96c9ba"), 0) ∧
    is_sha1 "033d50e2298811d81de7db8cdea63e349a96c9ba" = true :=
  ⟨(C9_sha1_fast_path (fun _ _ => .error "unreachable") (fun _ _ => .ok [])
      "aosp" "https://a" "device/generic/common"
      "033d50e2298811d81de7db8cdea63e349a96c9ba" (by decide)).1,
   by decide⟩

/-! ## Claim C4: retry policy of the resolver -/

/-- C4: a failing resolution attempt is retried (after the fixed
2000-millisecond delay) precisely when its error text signals HTTP 429,
up to `GIT_LS_REMOTE_MAX_RETRIES = 3` attempts in total: two rate-limit
failures followed by a success succeed overall, three rate-limit failures
are a fatal non-partial failure, any non-rate-limit failure is fatal on
the spot without a retry, and no run ever exceeds three attempts. -/
theorem C4_retry_policy :
    (∀ (α : Type) (call : Nat → Except String α) (m1 m2 : String) (v : α),
      shouldRetry m1 = true → shouldRetry m2 = true →
      call 1 = .error m1 → call 2 = .error m2 → call 3 = .ok v →
      retryGetRevision call =
        ⟨.ok v, 3, [GIT_LS_REMOTE_WAIT, GIT_LS_REMOTE_WAIT]⟩) ∧
    (∀ (α : Type) (call : Nat → Except String α) (m1 m2 m3 : String),
      shouldRetry m1 = true → shouldRetry m2 = true →
      call 1 = .error m1 → call 2 = .error m2 → call 3 = .error m3 →
      retryGetRevision call =
        ⟨.error m3, 3, [GIT_LS_REMOTE_WAIT, GIT_LS_REMOTE_WAIT]⟩) ∧
    (∀ (α : Type) (call : Nat → Except String α) (m : String),
      shouldRetry m = false → call 1 = .error m →
      retryGetRevision call = ⟨.error m, 1, []⟩) ∧
    (∀ (α : Type) (call : Nat → Except String α),
      (retryGetRevision call).attempts ≤ GIT_LS_REMOTE_MAX_RETRIES) := by
  have hb : ∀ (α : Type) (call : Nat → Except String α) (a l : Nat),
      (retryFrom call a l).attempts ≤ l + 1 := by
    intro α call a l
    induction l generalizing a with
    | zero => simp [retryFrom]
    | succ n ih =>
      rw [retryFrom]
      cases call a with
      | ok v => simp
      | error msg =>
        by_cases hr : shouldRetry msg = true
        · simpa [hr] using Nat.succ_le_succ (ih (a + 1))
        · simp [hr]
  refine ⟨?_, ?_, ?_, ?_⟩
  · intro α call m1 m2 v h1 h2 c1 c2 c3
    simp [retryGetRevision, GIT_LS_REMOTE_MAX_RETRIES, retryFrom, c1, c2, c3, h1, h2]
  · intro α call m1 m2 m3 h1 h2 c1 c2 c3
    simp [retryGetRevision, GIT_LS_REMOTE_MAX_RETRIES, retryFrom, c1, c2, c3, h1, h2]
  · intro α call m hm c1
    simp [retryGetRevision, GIT_LS_REMOTE_MAX_RETRIES, retryFrom, c1, hm]
  · intro α call
    exact hb α call 1 (GIT_LS_REMOTE_MAX_RETRIES - 1)

/-- Witness for C4: a call rate-limited twice succeeds on the third
attempt with two 2000 ms waits, and a permanent failure aborts after one
attempt. -/
theorem C4_retry_policy_witness :
    retryGetRevision
        (fun n => if n < 3 then .error "HTTP 429 Too Many Requests" else .ok "v") =
      ⟨.ok "v", 3, [GIT_LS_REMOTE_WAIT, GIT_LS_REMOTE_WAIT]⟩ ∧
    retryGetRevision (fun _ => (.error "fatal: not found" : Except String String)) =
      ⟨.error "fatal: not found", 1, []⟩ :=
  ⟨C4_retry_policy.1 String _ "HTTP 429 Too Many Requests"
      "HTTP 429 Too Many Requests" "v" (by decide) (by decide) rfl rfl rfl,
   C4_retry_policy.2.2.1 String _ "fatal: not found" (by decide) rfl⟩

/-! ## Claim C10: `Version` file round-trip -/

/-- Universal-newline translation leaves a carriage-return-free text
unchanged. -/
theorem univNewlines_no_cr : ∀ cs : List Char, '\r' ∉ cs → univNewlines cs = cs := by
  intro cs
  induction cs with
  | nil => intro _; rfl
  | cons c rest ih =>
    intro h
    have hc : ¬ c = '\r' := fun e => h (e ▸ List.mem_cons_self c rest)
    have hr : '\r' ∉ rest := fun e => h (List.mem_cons_of_mem c e)
    rw [univNewlines, ih hr]
    · exact fun _ e _ => hc e
    · exact fun e => hc e

/-- C10 counterexample: the round trip is not the identity on every raw
text — a version containing a Windows newline comes back altered, so the
claim's universally quantified byte-for-byte preservation fails. -/
theorem C10_counterexample :
    versionRoundTrip ⟨"<manifest>\r\n</manifest>"⟩ ≠ ⟨"<manifest>\r\n</manifest>"⟩ ∧
    Version.eq (versionRoundTrip ⟨"<manifest>\r\n</manifest>"⟩)
      ⟨"<manifest>\r\n</manifest>"⟩ = false := by
  decide

/-- C10 (amended): writing a `Version` with `to_file` and reading it back
with `from_file` preserves the raw text byte for byte whenever the text
contains no carriage return (the text-mode read's universal-newline
translation rewrites CR and CRLF). -/
theorem C10_roundtrip (v : Version) (h : '\r' ∉ v.version.data) :
    versionRoundTrip v = v := by
  obtain ⟨⟨data⟩⟩ := v
  simp only [versionRoundTrip]
  exact congrArg (fun l => Version.mk ⟨l⟩) (univNewlines_no_cr data h)

/-- Witness for C10 at a concrete carriage-return-free version text. -/
theorem C10_roundtrip_witness :
    versionRoundTrip ⟨"<manifest>\n  <project name=\"p\"/>\n</manifest>\n"⟩ =
      ⟨"<manifest>\n  <project name=\"p\"/>\n</manifest>\n"⟩ :=
  C10_roundtrip _ (by decide)

/-! ## Claim C7: which `default` element wins -/

/-- C7 counterexample: with two `default` elements the effective fallback
remote comes from the first, not the last — `manifest.find('default')`
returns the first match in tree order, refuting "last one wins". -/
theorem C7_counterexample :
    effectiveDefaultRemote
        [XNode.elem "default" [("remote", "alpha")] [],
         XNode.elem "default" [("remote", "beta")] []] = some "alpha" ∧
    ¬ effectiveDefaultRemote
        [XNode.elem "default" [("remote", "alpha")] [],
         XNode.elem "default" [("remote", "beta")] []] = some "beta" := by
  decide

/-- C7 (amended): when a manifest contains multiple `default` elements,
the effective default is taken from the *first* `default` element in
simple tree order: whatever follows it cannot change the choice. -/
theorem C7_first_default_wins (pre post : List XNode) (d : XNode)
    (hpre : ∀ x ∈ pre, ¬ x.tag = "default") (hd : d.tag = "default") :
    findDefault (pre ++ d :: post) = some d ∧
    effectiveDefaultRemote (pre ++ d :: post) = d.get "remote" := by
  have hfind : findDefault (pre ++ d :: post) = some d := by
    induction pre with
    | nil => simp [findDefault, List.find?_cons, hd]
    | cons x xs ih =>
      have hx : ¬ x.tag = "default" := hpre x (List.mem_cons_self x xs)
      have hxs : ∀ y ∈ xs, ¬ y.tag = "default" :=
        fun y hy => hpre y (List.mem_cons_of_mem x hy)
      simpa [findDefault, List.find?_cons, hx] using ih hxs
  exact ⟨hfind, by simp [effectiveDefaultRemote, hfind]⟩

/-- Witness for C7: a non-default element ahead of the only `default`. -/
theorem C7_first_default_wins_witness :
    findDefault [XNode.elem "remote" [("name", "r")] [],
                 XNode.elem "default" [("remote", "alpha")] [],
                 XNode.elem "default" [("remote", "beta")] []] =
      some (XNode.elem "default" [("remote", "alpha")] []) :=
  (C7_first_default_wins [XNode.elem "remote" [("name", "r")] []]
    [XNode.elem "default" [("remote", "beta")] []]
    (XNode.elem "default" [("remote", "alpha")] [])
    (by decide) (by decide)).1

/-! ## Claim C8: remote fetch-URL absolutization -/

/-- Strings with equal character data are equal. -/
theorem string_eq_of_data {a b : String} (h : a.data = b.data) : a = b := by
  cases a; cases b; exact congrArg String.mk h

/-- The `re.sub('/[a-z-.]*$', '/', url)` substitution replaces exactly the
last path segment when that segment consists of `[a-z-.]` characters:
every earlier slash has a later slash in its tail, and a slash is not a
segment character. -/
theorem stripLastSeg_append (b s : List Char) (hs : s.all segChar = true) :
    stripLastSeg (b ++ '/' :: s) = b ++ ['/'] := by
  induction b with
  | nil => simp [stripLastSeg, hs]
  | cons c cb ih =>
    rw [List.cons_append, stripLastSeg]
    have hfalse : (c == '/' && (cb ++ '/' :: s).all segChar) = false := by
      have : segChar '/' = false := by decide
      simp [List.all_append, List.all_cons, this]
    rw [hfalse]
    simp only [Bool.false_eq_true, if_false, List.cons_append]
    rw [ih]

/-- C8 counterexample: a fetch URL that already matches a `scheme://`
prefix is *not* used unchanged — its trailing slashes are stripped first. -/
theorem C8_counterexample :
    isAbsUrl "https://example.org/" = true ∧
    absolutizeFetch "https://host/manifest.git" "https://example.org/" ≠
      "https://example.org/" := by
  decide

/-- C8 (amended): the fetch URL is first stripped of trailing slashes; if
the stripped URL matches a `scheme://` prefix it is used in that stripped
form, and otherwise — when the manifest URL's last path segment consists
of lowercase letters, dots and dashes — the effective URL is the manifest
URL with that segment removed and the stripped relative fetch path
appended. -/
theorem C8_fetch_absolutization (selfUrl fetch base seg : String) :
    (isAbsUrl (rstripSlash fetch) = true →
      absolutizeFetch selfUrl fetch = rstripSlash fetch) ∧
    (isAbsUrl (rstripSlash fetch) = false →
      selfUrl = base ++ "/" ++ seg →
      seg.data.all segChar = true →
      absolutizeFetch selfUrl fetch = base ++ "/" ++ rstripSlash fetch) := by
  constructor
  · intro habs
    simp [absolutizeFetch, habs]
  · intro habs hurl hseg
    subst hurl
    simp only [absolutizeFetch, habs, Bool.false_eq_true, if_false]
    have hdata : (base ++ "/" ++ seg).data = base.data ++ '/' :: seg.data := by
      simp [String.data_append]
    rw [hdata, stripLastSeg_append base.data seg.data hseg]
    apply string_eq_of_data
    simp [String.data_append]

/-- Witness for C8: an absolute fetch URL is kept (stripped of its
trailing slash), and a relative one is appended to the manifest URL
without its final path segment. -/
theorem C8_fetch_absolutization_witness :
    absolutizeFetch "https://h/m.git" "ssh://git@sub/" = "ssh://git@sub" ∧
    absolutizeFetch "https://github.com/makohoek/demo-manifests.git" "device-foo" =
      "https://github.com/makohoek" ++ "/" ++ "device-foo" :=
  ⟨(C8_fetch_absolutization "https://h/m.git" "ssh://git@sub/" "" "").1 (by decide),
   (C8_fetch_absolutization "https://github.com/makohoek/demo-manifests.git"
      "device-foo" "https://github.com/makohoek" "demo-manifests.git").2
      (by decide) (by decide) (by decide)⟩

/-! ## Claim C3: filtering of unrecognized tags -/

/-- C3: the removal loop of `Version.standard` mutates the child list
while iterating it, so the element immediately following a removed one is
skipped: with two consecutive unrecognized elements the second survives
into the canonical output, contradicting the specified filter. The spec's
own design note flags exactly this mutate-while-iterating hazard, so this
is recorded as a code bug at the concrete input
`<manifest><foo/><bar/><project name="p"/></manifest>`. -/
theorem C3_unrecognized_tag_survives :
    pyFilterTags
        [XNode.elem "foo" [] [], XNode.elem "bar" [] [],
         XNode.elem "project" [("name", "p")] []] =
      [XNode.elem "bar" [] [], XNode.elem "project" [("name", "p")] []] ∧
    TAGS.contains "bar" = false ∧
    strContains
        (standardOfTree
          (XNode.elem "manifest" []
            [XNode.elem "foo" [] [], XNode.elem "bar" [] [],
             XNode.elem "project" [("name", "p")] []]))
        "<bar>" = true := by
  decide

/-! ## Claim C1: version equality and the novelty check -/

set_option maxRecDepth 100000 in
/-- C1 counterexample: two raw texts with byte-identical canonical forms
(same manifest, attributes written in a different order) are *not*
considered equal — `Version.__eq__` compares the raw texts. -/
theorem C1_counterexample :
    Version.standard ⟨"<manifest><project name=\"p\" path=\"x\"/></manifest>"⟩ =
      Version.standard ⟨"<manifest><project path=\"x\" name=\"p\"/></manifest>"⟩ ∧
    Version.standard ⟨"<manifest><project name=\"p\" path=\"x\"/></manifest>"⟩ ≠ none ∧
    (⟨"<manifest><project name=\"p\" path=\"x\"/></manifest>"⟩ : Version) ≠
      ⟨"<manifest><project path=\"x\" name=\"p\"/></manifest>"⟩ ∧
    Version.eq ⟨"<manifest><project name=\"p\" path=\"x\"/></manifest>"⟩
      ⟨"<manifest><project path=\"x\" name=\"p\"/></manifest>"⟩ = false := by
  decide

/-- C1 (amended): two `Version`s are equal iff their *raw* texts are
byte-identical (raw equality implies canonical equality, not conversely),
and the novelty check of `check` is plain set membership on the raw
version values: it leaves the history unchanged iff the fresh value
already occurs, and appends it otherwise — so a fresh version whose
canonical form matches a history entry but whose raw value differs is
still reported as new. -/
theorem C1_raw_version_equality (a b : Version) (hist : List String) (d : String) :
    (Version.eq a b = true ↔ a.version = b.version) ∧
    (Version.eq a b = true → Version.standard a = Version.standard b) ∧
    (checkNovelty hist d = hist ↔ d ∈ hist) ∧
    (d ∉ hist → checkNovelty hist d = hist ++ [d]) := by
  have h1 : Version.eq a b = true ↔ a.version = b.version := by
    simp [Version.eq]
  have happ : d ∉ hist → checkNovelty hist d = hist ++ [d] := by
    intro hnot
    simp [checkNovelty, List.count_eq_zero.mpr hnot]
  refine ⟨h1, ?_, ?_, happ⟩
  · intro he
    obtain ⟨va⟩ := a
    obtain ⟨vb⟩ := b
    have hv : va = vb := h1.mp he
    rw [hv]
  · constructor
    · intro hkeep
      by_contra hnot
      have := happ hnot
      rw [hkeep] at this
      have hlen := congrArg List.length this
      simp at hlen
    · intro hmem
      have : hist.count d ≠ 0 := by
        simpa [List.count_eq_zero] using hmem
      simp [checkNovelty, this]

/-- Witness for C1 at concrete versions and histories. -/
theorem C1_raw_version_equality_witness :
    checkNovelty ["a"] "b" = ["a"] ++ ["b"] ∧
    Version.eq ⟨"x"⟩ ⟨"x"⟩ = true :=
  ⟨(C1_raw_version_equality ⟨"x"⟩ ⟨"x"⟩ ["a"] "b").2.2.2 (by decide),
   (C1_raw_version_equality ⟨"x"⟩ ⟨"x"⟩ [] "").1.mpr rfl⟩

/-! ## Claim C5: `remove-project` removes at most once -/

/-- Counting law of the second removal pass: the surviving `p`-named
projects are the original ones minus one per pending occurrence of `p`,
saturating at zero. -/
theorem applyRemovals_count (p : String) (cs : List XNode) :
    ∀ removed : List (Option String),
      (applyRemovals removed cs).countP (isProjNamed p) =
        cs.countP (isProjNamed p) -
          min (cs.countP (isProjNamed p)) (removed.count (some p)) := by
  induction cs with
  | nil => intro removed; simp [applyRemovals]
  | cons c rest ih =>
    intro removed
    rw [applyRemovals]
    by_cases hc : (c.tag == "project" && removed.contains (c.get "name")) = true
    · rw [if_pos hc]
      rw [Bool.and_eq_true] at hc
      by_cases hp : isProjNamed p c = true
      · have hname : c.get "name" = some p := by
          have h2 := hp
          simp only [isProjNamed, Bool.and_eq_true, beq_iff_eq] at h2
          exact h2.2
        have hmem : some p ∈ removed := by
          have h3 := hc.2
          rw [hname] at h3
          simpa using h3
        have hk : 1 ≤ removed.count (some p) := List.count_pos_iff.mpr hmem
        have herase : (removed.erase (c.get "name")).count (some p) =
            removed.count (some p) - 1 := by
          rw [hname]
          exact List.count_erase_self (some p) removed
        rw [ih, herase]
        simp only [List.countP_cons, if_pos hp]
        omega
      · have hne : some p ≠ c.get "name" := by
          intro e
          apply hp
          simp only [isProjNamed, Bool.and_eq_true, beq_iff_eq]
          exact ⟨by simpa using hc.1, e.symm⟩
        have herase : (removed.erase (c.get "name")).count (some p) =
            removed.count (some p) := List.count_erase_of_ne hne removed
        rw [ih, herase]
        simp only [List.countP_cons, if_neg hp]
        omega
    · rw [if_neg hc]
      by_cases hp : isProjNamed p c = true
      · have hproj : (c.tag == "project") = true := by
          have h2 := hp
          simp only [isProjNamed, Bool.and_eq_true] at h2
          exact h2.1
        have hname : c.get "name" = some p := by
          have h2 := hp
          simp only [isProjNamed, Bool.and_eq_true, beq_iff_eq] at h2
          exact h2.2
        have hnotmem : some p ∉ removed := by
          intro hmem
          apply hc
          rw [Bool.and_eq_true]
          refine ⟨hproj, ?_⟩
          rw [hname]
          simpa using hmem
        have hzero : removed.count (some p) = 0 :=
          List.count_eq_zero_of_not_mem hnotmem
        simp only [List.countP_cons, if_pos hp]
        rw [ih, hzero]
        omega
      · simp only [List.countP_cons, if_neg hp]
        rw [ih]
        omega

/-- The names collected from `remove-project` directives contain `p` as
often as directives for `p` occur. -/
theorem collectRemoved_count (p : String) (cs : List XNode) :
    (collectRemovedNames cs).count (some p) = cs.countP (isDirNamed p) := by
  induction cs with
  | nil => rfl
  | cons c rest ih =>
    rw [collectRemovedNames, List.filter_cons] at *
    by_cases hd : (c.tag == "remove-project") = true
    · rw [if_pos hd, List.map_cons, List.count_cons, List.countP_cons, ih]
      by_cases hn : (c.get "name" == some p) = true
      · rw [isDirNamed]
        simp [hd, hn]
      · rw [isDirNamed]
        simp [hd, hn]
    · rw [if_neg hd, List.countP_cons, ih, isDirNamed]
      simp [hd]

/-- Dropping the directives themselves does not change how many `p`-named
projects there are. -/
theorem dropDirs_countProj (p : String) (cs : List XNode) :
    (dropRemoveDirectives cs).countP (isProjNamed p) =
      cs.countP (isProjNamed p) := by
  rw [dropRemoveDirectives, List.countP_filter]
  apply List.countP_congr
  intro x _
  constructor
  · intro h
    rw [Bool.and_eq_true] at h
    exact h.1
  · intro h
    rw [Bool.and_eq_true]
    refine ⟨h, ?_⟩
    rw [isProjNamed, Bool.and_eq_true, beq_iff_eq] at h
    simp [h.1]

/-- After the first pass no directive is left. -/
theorem dropDirs_noDir (cs : List XNode) :
    (dropRemoveDirectives cs).countP isDirective = 0 := by
  rw [List.countP_eq_zero]
  intro a ha
  rw [dropRemoveDirectives, List.mem_filter] at ha
  rw [isDirective]
  simpa using ha.2

/-- The second pass only ever drops elements, so it cannot reintroduce a
directive. -/
theorem applyRemovals_noDir (cs : List XNode) :
    ∀ removed, cs.countP isDirective = 0 →
      (applyRemovals removed cs).countP isDirective = 0 := by
  induction cs with
  | nil => intro removed _; simp [applyRemovals]
  | cons c rest ih =>
    intro removed h
    rw [List.countP_cons] at h
    have hrest : rest.countP isDirective = 0 := by omega
    have hcnot : ¬ isDirective c = true := by
      intro hcd
      rw [if_pos hcd] at h
      omega
    rw [applyRemovals]
    by_cases hc : (c.tag == "project" && removed.contains (c.get "name")) = true
    · rw [if_pos hc]
      exact ih _ hrest
    · rw [if_neg hc, List.countP_cons, if_neg hcnot, ih _ hrest]

/-- C5: with exactly one `remove-project` directive for `p`, exactly one
`p`-named project is removed when any exists (the count drops by
`min N 1`, so an unmatched directive is a no-op), independently of the
directive's position, and no `remove-project` element survives into the
final child list. -/
theorem C5_removal_at_most_once (cs : List XNode) (p : String)
    (hdir : cs.countP (isDirNamed p) = 1) :
    (removePhase cs).countP (isProjNamed p) =
      cs.countP (isProjNamed p) - min (cs.countP (isProjNamed p)) 1 ∧
    (removePhase cs).countP isDirective = 0 := by
  constructor
  · rw [removePhase, applyRemovals_count, dropDirs_countProj,
      collectRemoved_count, hdir]
  · rw [removePhase]
    exact applyRemovals_noDir _ _ (dropDirs_noDir cs)

/-- Witness for C5: two projects named `p` and one directive between them:
one project survives and the directive is gone. -/
theorem C5_removal_at_most_once_witness :
    (removePhase
        [XNode.elem "project" [("name", "p")] [],
         XNode.elem "remove-project" [("name", "p")] [],
         XNode.elem "project" [("name", "p")] []]).countP (isProjNamed "p") =
      2 - min 2 1 ∧
    (removePhase
        [XNode.elem "project" [("name", "p")] [],
         XNode.elem "remove-project" [("name", "p")] [],
         XNode.elem "project" [("name", "p")] []]).countP isDirective = 0 :=
  C5_removal_at_most_once
    [XNode.elem "project" [("name", "p")] [],
     XNode.elem "remove-project" [("name", "p")] [],
     XNode.elem "project" [("name", "p")] []] "p" (by decide)

/-! ## Claim C2: order-insensitivity of canonicalization -/

/-- Totality of the code-point order. -/
theorem clLe_total : ∀ a b : List Char, clLe a b = true ∨ clLe b a = true
  | [], _ => Or.inl rfl
  | _ :: _, [] => Or.inr rfl
  | x :: xs, y :: ys => by
    rcases lt_trichotomy x y with h | h | h
    · left; simp [clLe, h]
    · subst h
      rcases clLe_total xs ys with h2 | h2
      · left; simp [clLe, lt_irrefl, h2]
      · right; simp [clLe, lt_irrefl, h2]
    · right; simp [clLe, h]

/-- Transitivity of the code-point order. -/
theorem clLe_trans : ∀ a b c : List Char,
    clLe a b = true → clLe b c = true → clLe a c = true
  | [], _, _ => fun _ _ => rfl
  | _ :: _, [], _ => fun hab _ => by simp [clLe] at hab
  | _ :: _, _ :: _, [] => fun _ hbc => by simp [clLe] at hbc
  | x :: xs, y :: ys, z :: zs => fun hab hbc => by
    rcases lt_trichotomy x y with hxy | hxy | hxy
    · rcases lt_trichotomy y z with hyz | hyz | hyz
      · simp [clLe, lt_trans hxy hyz]
      · subst hyz; simp [clLe, hxy]
      · rw [clLe, if_neg (lt_asymm hyz), if_pos hyz] at hbc
        simp at hbc
    · subst hxy
      rcases lt_trichotomy x z with hxz | hxz | hxz
      · simp [clLe, hxz]
      · subst hxz
        rw [clLe, if_neg (lt_irrefl x), if_neg (lt_irrefl x)] at hab hbc ⊢
        exact clLe_trans xs ys zs hab hbc
      · rw [clLe, if_neg (lt_asymm hxz), if_pos hxz] at hbc
        simp at hbc
    · rw [clLe, if_neg (lt_asymm hxy), if_pos hxy] at hab
      simp at hab

/-- Antisymmetry of the code-point order. -/
theorem clLe_antisymm : ∀ a b : List Char,
    clLe a b = true → clLe b a = true → a = b
  | [], [] => fun _ _ => rfl
  | [], _ :: _ => fun _ hba => by simp [clLe] at hba
  | _ :: _, [] => fun hab _ => by simp [clLe] at hab
  | x :: xs, y :: ys => fun hab hba => by
    rcases lt_trichotomy x y with h | h | h
    · rw [clLe, if_neg (lt_asymm h), if_pos h] at hba
      simp at hba
    · subst h
      rw [clLe, if_neg (lt_irrefl x), if_neg (lt_irrefl x)] at hab hba
      rw [clLe_antisymm xs ys hab hba]
    · rw [clLe, if_neg (lt_asymm h), if_pos h] at hab
      simp at hab

/-- The composite key order is total. -/
theorem keyLe_total (x y : XNode) : keyLe x y ∨ keyLe y x := by
  rcases Nat.lt_trichotomy (tagRank x.tag) (tagRank y.tag) with h | h | h
  · exact Or.inl (Or.inl h)
  · rcases clLe_total (nameKey x).data (nameKey y).data with h2 | h2
    · exact Or.inl (Or.inr ⟨h, h2⟩)
    · exact Or.inr (Or.inr ⟨h.symm, h2⟩)
  · exact Or.inr (Or.inl h)

/-- The composite key order is transitive. -/
theorem keyLe_trans (x y z : XNode) : keyLe x y → keyLe y z → keyLe x z := by
  intro hxy hyz
  rcases hxy with h1 | ⟨h1, h1'⟩
  · rcases hyz with h2 | ⟨h2, _⟩
    · exact Or.inl (Nat.lt_trans h1 h2)
    · exact Or.inl (h2 ▸ h1)
  · rcases hyz with h2 | ⟨h2, h2'⟩
    · exact Or.inl (h1 ▸ h2)
    · exact Or.inr ⟨h1.trans h2, clLe_trans _ _ _ h1' h2'⟩

/-- Two elements below each other in the key order share their key. -/
theorem keyLe_both_keys (a b : XNode) (hab : keyLe a b) (hba : keyLe b a) :
    sortKey a = sortKey b := by
  rcases hab with h1 | ⟨h1, h1'⟩
  · rcases hba with h2 | ⟨h2, _⟩
    · exact absurd (Nat.lt_trans h1 h2) (Nat.lt_irrefl _)
    · rw [h2] at h1
      exact absurd h1 (Nat.lt_irrefl _)
  · rcases hba with h2 | ⟨h2, h2'⟩
    · rw [h1] at h2
      exact absurd h2 (Nat.lt_irrefl _)
    · have hn : nameKey a = nameKey b :=
        string_eq_of_data (clLe_antisymm _ _ h1' h2')
      rw [sortKey, sortKey, h1, hn]

/-- When every top-level element bears a recognized tag, the removal loop
removes nothing (and so also skips nothing). -/
theorem pyFilterTags_id : ∀ cs : List XNode,
    (∀ x ∈ cs, TAGS.contains x.tag = true) → pyFilterTags cs = cs
  | [] => fun _ => rfl
  | [x] => fun h => by
    rw [pyFilterTags, if_pos (h x (List.mem_singleton.mpr rfl))]
  | x :: y :: rest => fun h => by
    rw [pyFilterTags, if_pos (h x (by simp))]
    rw [pyFilterTags_id (y :: rest) fun z hz => h z (List.mem_cons_of_mem x hz)]

/-- Sorting by the composite key is permutation-invariant when the keys
are pairwise distinct: both sorts are key-sorted permutations of each
other, and with distinct keys such a list is unique. -/
theorem sortChildren_eq_of_perm (cs cs' : List XNode) (hperm : cs.Perm cs')
    (hkeys : cs.Pairwise fun x y => sortKey x ≠ sortKey y) :
    sortChildren cs = sortChildren cs' := by
  haveI : IsTotal XNode keyLe := ⟨keyLe_total⟩
  haveI : IsTrans XNode keyLe := ⟨keyLe_trans⟩
  haveI : IsAntisymm XNode fun x y => keyLe x y ∧ sortKey x ≠ sortKey y := by
    constructor
    intro a b hab hba
    exact absurd (keyLe_both_keys a b hab.1 hba.1) hab.2
  have hsym : ∀ {x y : XNode}, sortKey x ≠ sortKey y → sortKey y ≠ sortKey x :=
    fun h => h.symm
  have hp1 : (cs.insertionSort keyLe).Pairwise fun x y => sortKey x ≠ sortKey y :=
    (List.Perm.pairwise_iff hsym (List.perm_insertionSort keyLe cs)).mpr hkeys
  have hkeys' : cs'.Pairwise fun x y => sortKey x ≠ sortKey y :=
    (List.Perm.pairwise_iff hsym hperm).mp hkeys
  have hp2 : (cs'.insertionSort keyLe).Pairwise fun x y => sortKey x ≠ sortKey y :=
    (List.Perm.pairwise_iff hsym (List.perm_insertionSort keyLe cs')).mpr hkeys'
  have hs1 := List.sorted_insertionSort keyLe cs
  have hs2 := List.sorted_insertionSort keyLe cs'
  rw [sortChildren, sortChildren]
  exact List.eq_of_perm_of_sorted
    ((List.perm_insertionSort keyLe cs).trans
      (hperm.trans (List.perm_insertionSort keyLe cs').symm))
    (List.Pairwise.and hs1 hp1) (List.Pairwise.and hs2 hp2)

/-- C2 counterexample: a well-formed manifest may contain two projects
with the same name (checked out at different paths); their composite sort
keys tie, the stable sort keeps their relative order, and swapping them
changes the canonical output — so canonicalization is not insensitive to
every permutation. -/
theorem C2_counterexample :
    ([XNode.elem "project" [("name", "p"), ("path", "y")] [],
      XNode.elem "project" [("name", "p"), ("path", "x")] []] : List XNode).Perm
      [XNode.elem "project" [("name", "p"), ("path", "x")] [],
       XNode.elem "project" [("name", "p"), ("path", "y")] []] ∧
    standardOfTree (XNode.elem "manifest" []
        [XNode.elem "project" [("name", "p"), ("path", "y")] [],
         XNode.elem "project" [("name", "p"), ("path", "x")] []]) ≠
      standardOfTree (XNode.elem "manifest" []
        [XNode.elem "project" [("name", "p"), ("path", "x")] [],
         XNode.elem "project" [("name", "p"), ("path", "y")] []]) := by
  decide

/-- C2 (amended): canonicalization is order-insensitive for manifests
whose top-level elements all bear recognized tags and have pairwise
distinct composite keys (tag rank, name): for any permutation of such
top-level elements the canonical output is unchanged. With an
unrecognized tag the skip-on-remove filter is order-sensitive, and with
tied keys the stable sort preserves the input order. -/
theorem C2_order_insensitive (cs cs' : List XNode) (hperm : cs.Perm cs')
    (hrec : ∀ x ∈ cs, TAGS.contains x.tag = true)
    (hkeys : cs.Pairwise fun x y => sortKey x ≠ sortKey y) :
    standardOfTree (XNode.elem "manifest" [] cs) =
      standardOfTree (XNode.elem "manifest" [] cs') := by
  have hrec' : ∀ x ∈ cs', TAGS.contains x.tag = true :=
    fun x hx => hrec x (hperm.mem_iff.mpr hx)
  rw [standardOfTree, standardOfTree]
  rw [XNode.children, XNode.children]
  rw [pyFilterTags_id cs hrec, pyFilterTags_id cs' hrec']
  rw [sortChildren_eq_of_perm cs cs' hperm hkeys]

/-- Witness for C2: swapping a `remote` and a `project` (distinct kinds,
hence distinct keys) leaves the canonical form unchanged. -/
theorem C2_order_insensitive_witness :
    standardOfTree (XNode.elem "manifest" []
        [XNode.elem "project" [("name", "b")] [],
         XNode.elem "remote" [("name", "a")] []]) =
      standardOfTree (XNode.elem "manifest" []
        [XNode.elem "remote" [("name", "a")] [],
         XNode.elem "project" [("name", "b")] []]) :=
  C2_order_insensitive
    [XNode.elem "project" [("name", "b")] [], XNode.elem "remote" [("name", "a")] []]
    [XNode.elem "remote" [("name", "a")] [], XNode.elem "project" [("name", "b")] []]
    (by decide) (by decide) (by decide)

/-! ## Claim C6: include flattening -/

/-- Every element occurs in its own preorder traversal. -/
theorem mem_iterList_self : ∀ x : XNode, x ∈ XNode.iterList x
  | .elem t a cs => by
    rw [XNode.iterList]
    exact List.mem_cons_self _ _

mutual
/-- The preorder traversal is closed under taking sub-traversals. -/
theorem iter_closed : ∀ (x d : XNode), d ∈ XNode.iterList x →
    ∀ y ∈ XNode.iterList d, y ∈ XNode.iterList x
  | .elem t a cs, d => by
    rw [XNode.iterList]
    intro hd y hy
    rcases List.mem_cons.mp hd with he | hmem
    · subst he
      rw [XNode.iterList] at hy
      exact hy
    · exact List.mem_cons_of_mem _ (iterL_closed cs d hmem y hy)
/-- Sibling-list version of `iter_closed`. -/
theorem iterL_closed : ∀ (cs : List XNode) (d : XNode), d ∈ XNode.iterListL cs →
    ∀ y ∈ XNode.iterList d, y ∈ XNode.iterListL cs
  | [], d => by
    intro hd
    rw [XNode.iterListL] at hd
    exact absurd hd (List.not_mem_nil d)
  | c :: cs, d => by
    rw [XNode.iterListL]
    intro hd y hy
    rcases List.mem_append.mp hd with hmem | hmem
    · exact List.mem_append_left _ (iter_closed c d hmem y hy)
    · exact List.mem_append_right _ (iterL_closed cs d hmem y hy)
end

/-- A traversal of include-free siblings contains no `include`. -/
theorem noIncl_iterListL (cs : List XNode)
    (h : ∀ c ∈ cs, includeFreeB c = true) :
    noIncl (XNode.iterListL cs) = true := by
  induction cs with
  | nil => rfl
  | cons c rest ih =>
    rw [XNode.iterListL, noIncl, List.all_append]
    have h1 : (XNode.iterList c).all (fun d => !(d.tag == "include")) = true :=
      h c (List.mem_cons_self c rest)
    have h2 : (XNode.iterListL rest).all (fun d => !(d.tag == "include")) = true := by
      have := ih fun z hz => h z (List.mem_cons_of_mem c hz)
      rw [noIncl] at this
      exact this
    rw [h1, h2]
    rfl

/-- An include-tagged element cannot occur in an include-free list. -/
theorem count_zero_of_noIncl (l : List XNode) (hl : noIncl l = true)
    (x : XNode) (hx : x.tag = "include") : l.count x = 0 := by
  apply List.count_eq_zero_of_not_mem
  intro hmem
  rw [noIncl, List.all_eq_true] at hl
  have := hl x hmem
  rw [hx] at this
  simp at this

/-- Under the depth-one discipline, the full traversal of the sibling
subtrees contains each include-tagged element exactly as often as the
sibling list itself does. -/
theorem count_iterListL (x : XNode) (hx : x.tag = "include") :
    ∀ cs : List XNode, (∀ c ∈ cs, c.children.all includeFreeB = true) →
      (XNode.iterListL cs).count x = cs.count x := by
  intro cs
  induction cs with
  | nil => intro _; rfl
  | cons c rest ih =>
    intro h
    obtain ⟨t, a, ccs⟩ := c
    rw [XNode.iterListL, XNode.iterList, List.count_append, List.count_cons,
      List.count_cons]
    have hfree : ∀ d ∈ ccs, includeFreeB d = true := by
      have := h _ (List.mem_cons_self _ rest)
      rw [XNode.children, List.all_eq_true] at this
      exact this
    have hz : (XNode.iterListL ccs).count x = 0 :=
      count_zero_of_noIncl _ (noIncl_iterListL ccs hfree) x hx
    have hrest : (XNode.iterListL rest).count x = rest.count x :=
      ih fun z hz2 => h z (List.mem_cons_of_mem _ hz2)
    omega

/-- Counting elements across a clamping list insertion. -/
theorem pyInsertAt_count {α : Type} [DecidableEq α] (i : Nat) (a x : α)
    (l : List α) : (pyInsertAt i a l).count x = (a :: l).count x := by
  have hsplit : l = l.take i ++ l.drop i := (List.take_append_drop i l).symm
  rw [pyInsertAt, List.count_append, List.count_cons, List.count_cons]
  conv_rhs => rw [hsplit]
  rw [List.count_append]
  omega

/-- Counting elements across the reversed-insertion splice. -/
theorem insertAllRev_count (idx : Nat) (elems children : List XNode) (x : XNode) :
    (insertAllRev idx elems children).count x =
      elems.count x + children.count x := by
  have aux : ∀ (l acc : List XNode),
      (l.foldl (fun acc e => pyInsertAt idx e acc) acc).count x =
        l.count x + acc.count x := by
    intro l
    induction l with
    | nil => intro acc; simp
    | cons e rest ih =>
      intro acc
      rw [List.foldl_cons, ih, pyInsertAt_count, List.count_cons, List.count_cons]
      omega
  rw [insertAllRev, aux, List.count_reverse]

/-- A successful `list.remove` means the element was present and the first
occurrence is gone. -/
theorem pyRemoveChild_ok {x : XNode} {cs rs : List XNode}
    (h : pyRemoveChild x cs = .ok rs) : x ∈ cs ∧ rs = cs.erase x := by
  rw [pyRemoveChild] at h
  by_cases hc : cs.contains x = true
  · rw [if_pos hc] at h
    injection h with h2
    exact ⟨by simpa using hc, h2.symm⟩
  · rw [if_neg hc] at h
    exact absurd h (by simp)

/-- Invariant of the include loop: if every include-tagged element occurs
in the evolving child list exactly as often as in the unprocessed
snapshot suffix, and every non-include child is include-free, then a
successful pass yields an include-free child list. The hypothesis `hres`
is the induction on the recursive sub-manifest resolution. -/
theorem processSnapshot_ok
    (resolveSub : String → Except String XNode)
    (hres : ∀ nm sub, resolveSub nm = .ok sub →
      noIncl (XNode.iterList sub) = true) :
    ∀ (snap : List (Nat × XNode)) (children cs' : List XNode),
      (∀ c ∈ children, ¬ c.tag = "include" → includeFreeB c = true) →
      (∀ x : XNode, x.tag = "include" →
        children.count x = (snap.map Prod.snd).count x) →
      processSnapshot resolveSub snap children = .ok cs' →
      ∀ c ∈ cs', includeFreeB c = true := by
  intro snap
  induction snap with
  | nil =>
    intro children cs' h1 h2 hok c hc
    rw [processSnapshot] at hok
    injection hok with he
    subst he
    by_cases htag : c.tag = "include"
    · exfalso
      have hz := h2 c htag
      rw [List.map_nil, List.count_nil] at hz
      exact List.count_eq_zero.mp hz hc
    · exact h1 c hc htag
  | cons p rest ih =>
    obtain ⟨idx, e⟩ := p
    intro children cs' h1 h2 hok
    rw [processSnapshot] at hok
    by_cases he : (e.tag == "include") = true
    · rw [if_pos he] at hok
      have hetag : e.tag = "include" := by simpa using he
      split at hok
      · exact absurd hok (by simp)
      · rename_i nm hname
        split at hok
        · exact absurd hok (by simp)
        · rename_i sub hsub
          split at hok
          · exact absurd hok (by simp)
          · rename_i removed hrem
            obtain ⟨hmem_e, hrm⟩ := pyRemoveChild_ok hrem
            have hSall : noIncl (XNode.iterList sub) = true := hres nm sub hsub
            have hSfree : ∀ s ∈ (XNode.iterList sub).filter
                (fun s => !(s.tag == "manifest")), includeFreeB s = true := by
              intro s hs
              have hs' : s ∈ XNode.iterList sub := (List.mem_filter.mp hs).1
              rw [includeFreeB, noIncl, List.all_eq_true]
              intro y hy
              rw [noIncl, List.all_eq_true] at hSall
              exact hSall y (iter_closed sub s hs' y hy)
            have hmem_ins : ∀ z, z ∈ insertAllRev idx
                ((XNode.iterList sub).filter fun s => !(s.tag == "manifest"))
                children → z ∈ (XNode.iterList sub).filter
                  (fun s => !(s.tag == "manifest")) ∨ z ∈ children := by
              intro z hz
              have hpos : 0 < (insertAllRev idx
                  ((XNode.iterList sub).filter fun s => !(s.tag == "manifest"))
                  children).count z := List.count_pos_iff.mpr hz
              rw [insertAllRev_count] at hpos
              rcases Nat.lt_or_ge 0 (((XNode.iterList sub).filter
                  fun s => !(s.tag == "manifest")).count z) with hp | hp
              · exact Or.inl (List.count_pos_iff.mp hp)
              · have : 0 < children.count z := by omega
                exact Or.inr (List.count_pos_iff.mp this)
            have h1' : ∀ c ∈ removed, ¬ c.tag = "include" →
                includeFreeB c = true := by
              intro c hc htag
              have hc2 := List.mem_of_mem_erase (hrm ▸ hc)
              rcases hmem_ins c hc2 with hcs | hcc
              · exact hSfree c hcs
              · exact h1 c hcc htag
            have h2' : ∀ x : XNode, x.tag = "include" →
                removed.count x = (rest.map Prod.snd).count x := by
              intro x hx
              have hSx : ((XNode.iterList sub).filter
                  fun s => !(s.tag == "manifest")).count x = 0 := by
                apply List.count_eq_zero_of_not_mem
                intro hmx
                have hmx' : x ∈ XNode.iterList sub := (List.mem_filter.mp hmx).1
                rw [noIncl, List.all_eq_true] at hSall
                have := hSall x hmx'
                rw [hx] at this
                simp at this
              have hins : (insertAllRev idx
                  ((XNode.iterList sub).filter fun s => !(s.tag == "manifest"))
                  children).count x = children.count x := by
                rw [insertAllRev_count, hSx]
                omega
              have h2x := h2 x hx
              rw [List.map_cons, List.count_cons] at h2x
              by_cases hxe : x = e
              · subst hxe
                rw [hrm, List.count_erase_self, hins]
                rw [if_pos (by simp)] at h2x
                omega
              · rw [hrm, List.count_erase_of_ne hxe, hins]
                rw [if_neg (by simp [beq_iff_eq]; exact fun a => hxe a.symm)] at h2x
                omega
            exact ih removed cs' h1' h2' hok
    · rw [if_neg he] at hok
      have henot : ¬ e.tag = "include" := by simpa using he
      apply ih children cs' h1 ?_ hok
      intro x hx
      have h2x := h2 x hx
      rw [List.map_cons, List.count_cons] at h2x
      have hne : (e == x) = false := by
        rw [beq_eq_false_iff_ne]
        intro hex
        apply henot
        rw [hex, hx]
      rw [hne] at h2x
      simpa using h2x

/-- After a successful include resolution of a manifest whose `include`
elements sit only at the top level (at every nesting level of inclusion),
no `include` element remains anywhere in the result. -/
theorem resolveInclude_no_includes (env : String → Option XNode) :
    ∀ (fuel : Nat) (m m' : XNode),
      (∀ nm sub, env nm = some sub → topIncludesOnly sub = true) →
      topIncludesOnly m = true →
      resolveInclude env fuel m = .ok m' →
      noIncl (XNode.iterList m') = true := by
  intro fuel
  induction fuel with
  | zero =>
    intro m m' _ _ hok
    rw [resolveInclude] at hok
    exact absurd hok (by simp)
  | succ fuel ih =>
    intro m m' henv hm hok
    rw [topIncludesOnly, Bool.and_eq_true] at hm
    have hmtag : ¬ m.tag = "include" := by
      have := hm.1
      simp at this
      exact this
    have hmkids : ∀ c ∈ m.children, c.children.all includeFreeB = true := by
      have := hm.2
      rw [List.all_eq_true] at this
      exact this
    rw [resolveInclude] at hok
    split at hok
    case _ cs hcs =>
      injection hok with he
      subst he
      have hkids : ∀ c ∈ cs, includeFreeB c = true := by
        apply processSnapshot_ok _ ?_ (XNode.iterList m).enum m.children cs ?_ ?_ hcs
        · intro nm sub hsub
          cases henm : env nm with
          | none =>
            rw [henm] at hsub
            exact absurd hsub (by simp)
          | some s =>
            rw [henm] at hsub
            exact ih s sub henv (henv nm s henm) hsub
        · intro c hc htag
          have hfree : ∀ d ∈ c.children, includeFreeB d = true := by
            have := hmkids c hc
            rw [List.all_eq_true] at this
            exact this
          obtain ⟨t, a, ccs⟩ := c
          rw [includeFreeB, XNode.iterList, noIncl, List.all_cons, Bool.and_eq_true]
          constructor
          · simp only [XNode.tag] at htag
            simpa using htag
          · have := noIncl_iterListL ccs hfree
            rw [noIncl] at this
            exact this
        · intro x hx
          rw [List.enum_map_snd]
          have hcnt := count_iterListL x hx m.children hmkids
          obtain ⟨t, a, ccs⟩ := m
          simp only [XNode.children] at hcnt ⊢
          rw [XNode.iterList, List.count_cons, hcnt]
          have hne : (XNode.elem t a ccs == x) = false := by
            rw [beq_eq_false_iff_ne]
            intro hme
            apply hmtag
            rw [← hme] at hx
            exact hx
          rw [hne]
          simp
      rw [XNode.iterList, noIncl, List.all_cons, Bool.and_eq_true]
      constructor
      · simp only [XNode.tag]
        simpa using hmtag
      · have := noIncl_iterListL cs hkids
        rw [noIncl] at this
        exact this
    case _ msg hmsg =>
      exact absurd hok (by simp)

/-- C6: a parent manifest with one include referencing a sub-manifest that
declares one project flattens to exactly that project with no residual
`include` element; in general, for manifests whose includes sit at the top
level (at arbitrary include-nesting depth through sub-manifests), a
successful include resolution leaves no `include` element anywhere in the
tree. -/
theorem C6_include_flattening :
    resolveInclude
        (fun nm =>
          if nm = "sub.xml"
          then some (XNode.elem "manifest" []
            [XNode.elem "project" [("name", "foo")] []])
          else none)
        2 (XNode.elem "manifest" [] [XNode.elem "include" [("name", "sub.xml")] []]) =
      .ok (XNode.elem "manifest" [] [XNode.elem "project" [("name", "foo")] []]) ∧
    ∀ (env : String → Option XNode) (fuel : Nat) (m m' : XNode),
      (∀ nm sub, env nm = some sub → topIncludesOnly sub = true) →
      topIncludesOnly m = true →
      resolveInclude env fuel m = .ok m' →
      noIncl (XNode.iterList m') = true := by
  constructor
  · decide
  · intro env fuel m m' henv hm hok
    exact resolveInclude_no_includes env fuel m m' henv hm hok

/-- Witness for C6's general part at the concrete one-include scenario. -/
theorem C6_include_flattening_witness :
    noIncl (XNode.iterList (XNode.elem "manifest" []
      [XNode.elem "project" [("name", "foo")] []])) = true :=
  C6_include_flattening.2
    (fun nm =>
      if nm = "sub.xml"
      then some (XNode.elem "manifest" []
        [XNode.elem "project" [("name", "foo")] []])
      else none)
    2
    (XNode.elem "manifest" [] [XNode.elem "include" [("name", "sub.xml")] []])
    (XNode.elem "manifest" [] [XNode.elem "project" [("name", "foo")] []])
    (fun nm sub h => by
      simp only [] at h
      by_cases hnm : nm = "sub.xml"
      · rw [if_pos hnm] at h
        injection h with h2
        rw [← h2]
        decide
      · rw [if_neg hnm] at h
        exact absurd h (by simp))
    (by decide)
    (by decide)

end RepoResource
